import Mathlib

/-!
Verification of the sapp postprocessing pipeline specification against the
code of `tools/sapp/sapp/cli_lib.py` (the `analyze` command) and, for the
pipeline components whose source files are not part of this repository
snapshot, against models written from the specification text.
-/

namespace Sapp

/-- A filesystem path, as the string value click hands to the command. -/
abbrev FilePath := String

/-- Python truthiness of an optional string (`if previous_issue_handles:` in
`cli_lib.py`): `None` and the empty string are falsy. -/
def optTruthy : Option String → Bool
  | none => false
  | some s => !(s == "")

/-- A wrapped analysis output, the value returned by
`AnalysisOutput.from_file(path)`.  `from_file` wraps the file; actual parsing
happens later, in the pipeline parser step. -/
structure AnalysisOutputObj where
  fromPath : FilePath
  deriving DecidableEq, Repr

/-- `AnalysisOutput.from_file` of `cli_lib.py` lines 177 and 181 and 184. -/
def AnalysisOutput.fromFile (p : FilePath) : AnalysisOutputObj := ⟨p⟩

/-- The value of the second component of `input_files` in `cli_lib.py`
line 184: in Python it is `Union[AnalysisOutput, str, None]` — either a
wrapped (loaded) analysis output, a raw unparsed path string, or `None`. -/
inductive PipelineInput where
  | analysisOutput (o : AnalysisOutputObj)
  | raw (p : FilePath)
  | noInput
  deriving DecidableEq, Repr

/-- The options of the `analyze` click command (`cli_lib.py` lines 118-160). -/
structure AnalyzeOptions where
  run_kind : Option String
  branch : Option String
  commit_hash : Option String
  job_id : Option String
  differential_id : Option Int
  previous_issue_handles : Option FilePath
  previous_input : Option FilePath
  linemap : Option FilePath
  store_unused_models : Bool
  input_file : FilePath
  deriving Repr

/-- The `summary_blob` dict built by `analyze` (`cli_lib.py` lines 163-179). -/
structure SummaryBlob where
  run_kind : Option String
  repository : Option String
  branch : Option String
  commit_hash : Option String
  old_linemap_file : Option FilePath
  store_unused_models : Bool
  job_id : Option String
  previous_issue_handles : Option AnalysisOutputObj
  deriving DecidableEq, Repr

/-- The body of `analyze` before the pipeline run (`cli_lib.py` lines
162-184): builds `summary_blob`, computes the fallback `job_id`, loads the
previous-issue-handles file into the summary when that option is truthy,
otherwise replaces `previous_input` by its loaded form, and assembles
`input_files`. -/
def analyzeSetup (ctxRepository : Option String) (o : AnalyzeOptions) :
    SummaryBlob × PipelineInput × PipelineInput :=
  let jobId :=
    if o.job_id = none ∧ o.differential_id ≠ none then
      (o.differential_id.map (fun d => "user_input_" ++ toString d))
    else o.job_id
  let handlesLoaded :=
    if optTruthy o.previous_issue_handles then
      o.previous_issue_handles.map AnalysisOutput.fromFile
    else none
  let prevInput : PipelineInput :=
    if optTruthy o.previous_issue_handles then
      match o.previous_input with
      | some p => PipelineInput.raw p
      | none => PipelineInput.noInput
    else if optTruthy o.previous_input then
      match o.previous_input with
      | some p => PipelineInput.analysisOutput (AnalysisOutput.fromFile p)
      | none => PipelineInput.noInput
    else
      match o.previous_input with
      | some p => PipelineInput.raw p
      | none => PipelineInput.noInput
  let summary : SummaryBlob :=
    { run_kind := o.run_kind
      repository := ctxRepository
      branch := o.branch
      commit_hash := o.commit_hash
      old_linemap_file := o.linemap
      store_unused_models := o.store_unused_models
      job_id := jobId
      previous_issue_handles := handlesLoaded }
  (summary, PipelineInput.analysisOutput (AnalysisOutput.fromFile o.input_file), prevInput)

/-- The classes instantiated as pipeline steps by `analyze`
(`cli_lib.py` lines 185-192). -/
inductive StepKind where
  | baseParser
  | createDatabase
  | modelGenerator
  | trimTraceGraph
  | databaseSaver
  deriving DecidableEq, Repr

/-- The declared step list of the `analyze` pipeline, in source order
(`cli_lib.py` lines 185-192): the parser, `CreateDatabase`,
`ModelGenerator`, `TrimTraceGraph`, `DatabaseSaver`.  The
`PrimaryKeyGenerator` is not a step: it is a constructor argument of
`DatabaseSaver` (line 191). -/
def analyzePipelineSteps : List StepKind :=
  [StepKind.baseParser, StepKind.createDatabase, StepKind.modelGenerator,
   StepKind.trimTraceGraph, StepKind.databaseSaver]

/-- The components named by the specification (section 2), plus a marker for
steps that do not correspond to any of the five named components. -/
inductive SpecComponent where
  | parser
  | builder
  | trimmer
  | stabilizer
  | saver
  | databaseSetup
  deriving DecidableEq, Repr

/-- Which specification component each concrete step class realizes:
`ModelGenerator` is the Trace-Graph Builder, `TrimTraceGraph` the Trimmer,
`DatabaseSaver` the Saver; `CreateDatabase` (schema setup) is none of the
five spec components, and no step class realizes the Primary-Key Stabilizer
(key generation is an argument of `DatabaseSaver`, not a step). -/
def specRole : StepKind → SpecComponent
  | StepKind.baseParser => SpecComponent.parser
  | StepKind.createDatabase => SpecComponent.databaseSetup
  | StepKind.modelGenerator => SpecComponent.builder
  | StepKind.trimTraceGraph => SpecComponent.trimmer
  | StepKind.databaseSaver => SpecComponent.saver

/-- Modelled from the spec: `Pipeline.run` of `pipeline.py` (not under src/).
Section 4.1: the driver executes steps strictly in declared order, feeding
each step's output as the next step's input, with no parallel execution.  We
run the steps sequentially on a state and record the trace of executed step
identities in execution order. -/
def Pipeline.runTrace {D : Type} :
    List (StepKind × (D → D)) → D → D × List StepKind
  | [], d => (d, [])
  | (k, f) :: rest, d =>
    let d2 := f d
    let res := Pipeline.runTrace rest d2
    (res.1, k :: res.2)

/-- The `analyze` pipeline as constructed at `cli_lib.py` lines 185-197:
one step instance per class of `analyzePipelineSteps`, given an
implementation for each step class. -/
def analyzePipeline {D : Type} (impl : StepKind → D → D) :
    List (StepKind × (D → D)) :=
  analyzePipelineSteps.map (fun k => (k, impl k))

/-- Exit behaviour of the click command.  `Path(exists=True)` parameters
are validated before the command body runs; a missing file aborts with a
file-not-found error (the spec's NotFoundError) and a nonzero exit code. -/
inductive CliError where
  | notFound (p : FilePath)
  | pipelineError
  deriving DecidableEq, Repr

/-- click validation of one `Path(exists=True)` option against the
filesystem (modelled as the list of existing paths). -/
def checkExists (fs : List FilePath) (p : FilePath) : Except CliError Unit :=
  if p ∈ fs then Except.ok () else Except.error (CliError.notFound p)

/-- click validation of an optional `Path(exists=True)` option: absent
options are not checked. -/
def checkExistsOpt (fs : List FilePath) : Option FilePath → Except CliError Unit
  | none => Except.ok ()
  | some p => checkExists fs p

/-- Sequencing of two validations: the first failure wins. -/
def exceptSeq (a b : Except CliError Unit) : Except CliError Unit :=
  match a with
  | Except.error e => Except.error e
  | Except.ok _ => b

/-- The parameter validation click performs for `analyze` before its body
runs: `--previous-issue-handles`, `--previous-input`, `--linemap` and
`INPUT_FILE` are all declared with `Path(exists=True)`
(`cli_lib.py` lines 125-148). -/
def analyzeValidate (fs : List FilePath) (o : AnalyzeOptions) :
    Except CliError Unit :=
  exceptSeq (checkExistsOpt fs o.previous_issue_handles)
    (exceptSeq (checkExistsOpt fs o.previous_input)
      (exceptSeq (checkExistsOpt fs o.linemap)
        (checkExists fs o.input_file)))

/-- The whole `analyze` command: click validates the path parameters, and
only if all exist does the body (setup, parsing, pipeline) run.  The body is
abstracted as `runBody`, which covers everything from line 162 on, all
parsing included. -/
def analyzeCommand {R : Type} (fs : List FilePath) (o : AnalyzeOptions)
    (runBody : AnalyzeOptions → R) : Except CliError R :=
  match analyzeValidate fs o with
  | Except.error e => Except.error e
  | Except.ok _ => Except.ok (runBody o)

/-- Process exit code of the command: 0 on success, 2 on a click parameter
validation failure, 1 on an error escaping the body. -/
def exitCode {R : Type} : Except CliError R → Nat
  | Except.ok _ => 0
  | Except.error (CliError.notFound _) => 2
  | Except.error CliError.pipelineError => 1

/-!  Issue-handle diffing (spec section 4.6).  -/

/-- Modelled from the spec: a persisted issue row as the diff sees it
(the diffing code is not under src/).  An issue carries a numeric row id,
regenerated every run, and a content-derived handle string used as its
identity across runs (section 3). -/
structure IssueRecord where
  rowId : Nat
  handle : String
  deriving DecidableEq, Repr

/-- The handle set of a run's issues: row ids play no part. -/
def issueHandles (issues : List IssueRecord) : Finset String :=
  (issues.map IssueRecord.handle).toFinset

/-- Modelled from the spec: the three sets of the diff (section 4.6) —
fixed (in reference, not current), new (in current, not reference),
unchanged (in both), computed from the two runs' issue lists. -/
def runDiff (cur ref : List IssueRecord) :
    Finset String × Finset String × Finset String :=
  (issueHandles ref \ issueHandles cur,
   issueHandles cur \ issueHandles ref,
   issueHandles ref ∩ issueHandles cur)

/-- Reassign the numeric row ids of a run's issues. -/
def relabelRows (f : Nat → Nat) (issues : List IssueRecord) : List IssueRecord :=
  issues.map (fun i => { i with rowId := f i.rowId })

/-!  Primary-key stabilization (spec section 4.4).  -/

/-- Lookup of an identity tuple in the previous run's persisted table,
represented as an association list from identity tuple to key. -/
def lookupTup {κ : Type} [DecidableEq κ] (t : κ) :
    List (κ × Nat) → Option Nat
  | [] => none
  | (u, k) :: rest => if u = t then some k else lookupTup t rest

/-- The smallest integer strictly above every key of the previous table:
fresh keys are allocated monotonically from here, never colliding with a
still-live reused key. -/
def freshStart {κ : Type} (prev : List (κ × Nat)) : Nat :=
  (prev.map Prod.snd).foldr (fun a b => max a b) 0 + 1

/-- Modelled from the spec: the Primary-Key Stabilizer's hash-join
(section 4.4; the stabilizer code is not under src/).  Each identity tuple
of the current run that matches the previous run's table reuses the previous
key; each miss gets the monotonically next fresh key, starting at `next`. -/
def stabilize {κ : Type} [DecidableEq κ] (prev : List (κ × Nat)) :
    List κ → Nat → List (κ × Nat)
  | [], _ => []
  | t :: ts, next =>
    match lookupTup t prev with
    | some k => (t, k) :: stabilize prev ts next
    | none => (t, next) :: stabilize prev ts (next + 1)

/-- The stabilizer's run-level entry point: fresh keys start just above
every previously used key. -/
def stabilizeRun {κ : Type} [DecidableEq κ] (prev : List (κ × Nat))
    (cur : List κ) : List (κ × Nat) :=
  stabilize prev cur (freshStart prev)

/-- The current-run entities given a freshly allocated key (section 4.4's
"added" set). -/
def addedEntities {κ : Type} [DecidableEq κ] (prev : List (κ × Nat))
    (cur : List κ) : List κ :=
  cur.filter (fun t => (lookupTup t prev).isNone)

/-- The previous-run entities absent from the current graph (section 4.4's
"removed" set). -/
def removedEntities {κ : Type} [DecidableEq κ] (prev : List (κ × Nat))
    (cur : List κ) : List κ :=
  (prev.map Prod.fst).filter (fun t => decide (t ∉ cur))

/-!  Transactional persistence (spec section 4.7).  -/

/-- Modelled from the spec: the relational store of section 6, with the
tables Run, SharedText, TraceFrame and Issue.  Row payloads are abstracted
as natural numbers; only row identity and counts matter to the claims. -/
structure Database where
  runs : List Nat
  sharedTexts : List Nat
  traceFrames : List Nat
  issues : List Nat
  deriving DecidableEq, Repr

/-- The spec's StorageError: any failure during the Saver's transaction. -/
inductive StorageError where
  | storageError
  deriving DecidableEq, Repr

/-- One buffered write of the Saver's transaction: it may transform the
working state or fail. -/
abbrev WriteOp := Database → Except StorageError Database

/-- The body of the transaction: the writes applied in order to a working
state, stopping at the first failure. -/
def runTransaction (db : Database) : List WriteOp → Except StorageError Database
  | [] => Except.ok db
  | op :: ops =>
    match op db with
    | Except.error e => Except.error e
    | Except.ok db2 => runTransaction db2 ops

/-- Modelled from the spec: `DatabaseSaver.save` (section 4.7; the saver
code is not under src/): all writes of a run happen in one transaction; on
success the transaction commits and the new state becomes observable; on any
failure the transaction is rolled back and the observable state is the
pre-run database. -/
def DatabaseSaver.save (db : Database) (ops : List WriteOp) :
    Database × Except StorageError Unit :=
  match runTransaction db ops with
  | Except.ok db2 => (db2, Except.ok ())
  | Except.error e => (db, Except.error e)

/-- The per-table row counts of the store, in the order Run, SharedText,
TraceFrame, Issue. -/
def rowCounts (db : Database) : Nat × Nat × Nat × Nat :=
  (db.runs.length, db.sharedTexts.length, db.traceFrames.length,
   db.issues.length)

/-!  Trace-graph building (spec section 4.3).  -/

/-- The kind tag of a SharedText entry (section 3). -/
inductive TextKind where
  | message
  | feature
  | callable
  | filename
  deriving DecidableEq, Repr

/-- The kind of a TraceFrame (section 3). -/
inductive FrameKind where
  | precondition
  | postcondition
  deriving DecidableEq, Repr

/-- The identity tuple of a TraceFrame (section 3): kind, caller, callee,
caller port, callee port, filename, line.  Caller and callee are given by
content, matching the content-based identity later stages rely on. -/
structure FrameIdentity where
  kind : FrameKind
  caller : String
  callee : String
  callerPort : String
  calleePort : String
  filename : String
  line : Nat
  deriving DecidableEq, Repr

/-- Modelled from the spec: a typed record produced by the parser
(sections 4.2 and 4.3; the builder code is not under src/): an issue record
or a precondition/postcondition edge record. -/
inductive ParsedRecord where
  | issue (code : Nat) (callable : String) (message : String)
      (filename : String) (line : Nat)
  | condition (kind : FrameKind) (caller : String) (callee : String)
      (callerPort : String) (calleePort : String) (filename : String)
      (line : Nat) (features : List String)
  deriving DecidableEq, Repr

/-- The strings a record interns, with their SharedText kinds. -/
def recordTexts : ParsedRecord → List (TextKind × String)
  | ParsedRecord.issue _ c m f _ =>
    [(TextKind.callable, c), (TextKind.message, m), (TextKind.filename, f)]
  | ParsedRecord.condition _ caller callee _ _ f _ feats =>
    [(TextKind.callable, caller), (TextKind.callable, callee),
     (TextKind.filename, f)] ++ feats.map (fun s => (TextKind.feature, s))

/-- The TraceFrame identity tuples a record contributes. -/
def recordFrames : ParsedRecord → List FrameIdentity
  | ParsedRecord.issue _ _ _ _ _ => []
  | ParsedRecord.condition k caller callee cp ep f l _ =>
    [⟨k, caller, callee, cp, ep, f, l⟩]

/-- The builder's interning table: already-assigned entries (kind, text,
id) and the next id to hand out. -/
structure InternTable where
  nextId : Nat
  entries : List (TextKind × String × Nat)
  deriving DecidableEq, Repr

/-- Intern one string: reuse the existing entry when the content is already
present, otherwise create a fresh entry under the next id. -/
def internOne (k : TextKind) (s : String) (st : InternTable) : InternTable :=
  if (k, s) ∈ st.entries.map (fun e => (e.1, e.2.1)) then st
  else { nextId := st.nextId + 1, entries := (k, s, st.nextId) :: st.entries }

/-- Intern a list of strings left to right. -/
def internList : List (TextKind × String) → InternTable → InternTable
  | [], st => st
  | p :: ps, st => internList ps (internOne p.1 p.2 st)

/-- Modelled from the spec: the builder pass over the parsed records
(section 4.3), interning every involved string in input order. -/
def buildIntern : List ParsedRecord → InternTable → InternTable
  | [], st => st
  | r :: rs, st => buildIntern rs (internList (recordTexts r) st)

/-- The content set of an interning table: the (kind, text) pairs present,
ids dropped. -/
def internContents (st : InternTable) : Finset (TextKind × String) :=
  (st.entries.map (fun e => (e.1, e.2.1))).toFinset

/-- The set of SharedText entries (by content) the builder produces from a
parsed document. -/
def builderSharedTexts (records : List ParsedRecord) :
    Finset (TextKind × String) :=
  internContents (buildIntern records ⟨0, []⟩)

/-- The deduplicated set of TraceFrame identity tuples the builder produces
from a parsed document (section 4.3: frames with an identical identity tuple
are one entity). -/
def builderFrames (records : List ParsedRecord) : Finset FrameIdentity :=
  (records.flatMap recordFrames).toFinset

/-- Shard merge by concatenation (section 4.2). -/
def mergeShards (shards : List (List ParsedRecord)) : List ParsedRecord :=
  shards.flatten

/-!  Trace-graph trimming (spec sections 4.5 and 9).  -/

/-- Modelled from the spec: a TraceFrame as the trimmer sees it, in the
arena representation of section 9: a frame identity index and the two
callable nodes it connects, caller to callee. -/
structure TraceFrameE where
  fid : Nat
  source : Nat
  target : Nat
  deriving DecidableEq, Repr

/-- An issue's two frontier references (section 3): a source root node and
a sink root node. -/
structure IssueE where
  sourceRoot : Nat
  sinkRoot : Nat
  deriving DecidableEq, Repr

/-- The in-memory trace graph of one run (section 3), in the arena
representation the trimmer traverses: frames plus issues. -/
structure TraceGraph where
  frames : List TraceFrameE
  issues : List IssueE
  deriving DecidableEq, Repr

/-- Forward continuation: the frames leaving the node a frame enters. -/
def succFrames (frames : List TraceFrameE) (f : TraceFrameE) :
    List TraceFrameE :=
  frames.filter (fun g => decide (g.source = f.target))

/-- Backward continuation: the frames entering the node a frame leaves. -/
def predFrames (frames : List TraceFrameE) (f : TraceFrameE) :
    List TraceFrameE :=
  frames.filter (fun g => decide (g.target = f.source))

/-- Modelled from the spec: the marking traversal of section 4.5 — a
worklist of frames; the visited set is checked before expanding a frame, a
frame visited once is never re-expanded, and the first visit of a frame
pushes its continuations onto the worklist.  `fuel` bounds the number of
steps taken. -/
def visitMark (next : TraceFrameE → List TraceFrameE) :
    Nat → List Nat → List TraceFrameE → List Nat
  | 0, visited, _ => visited
  | _ + 1, visited, [] => visited
  | fuel + 1, visited, f :: work =>
    if f.fid ∈ visited then visitMark next fuel visited work
    else visitMark next fuel (f.fid :: visited) (next f ++ work)

/-- The number of frame identities of the graph or the worklist that are
not yet visited. -/
def unvisitedCard (frames : List TraceFrameE) (visited : List Nat)
    (work : List TraceFrameE) : Nat :=
  ((frames.map TraceFrameE.fid ++ work.map TraceFrameE.fid).toFinset
    \ visited.toFinset).card

/-- An upper bound on the number of traversal steps: each step consumes one
worklist entry, and only the first visit of a frame pushes new entries. -/
def visitMeasure (frames : List TraceFrameE) (visited : List Nat)
    (work : List TraceFrameE) : Nat :=
  work.length + (frames.length + 1) * unvisitedCard frames visited work

/-- The source roots of a graph's issues. -/
def sourceRoots (g : TraceGraph) : List Nat :=
  g.issues.map IssueE.sourceRoot

/-- The sink roots of a graph's issues. -/
def sinkRoots (g : TraceGraph) : List Nat :=
  g.issues.map IssueE.sinkRoot

/-- The forward traversal's seeds: frames leaving some issue's source
root. -/
def fwdSeeds (g : TraceGraph) : List TraceFrameE :=
  g.frames.filter (fun f => decide (f.source ∈ sourceRoots g))

/-- The backward traversal's seeds: frames entering some issue's sink
root. -/
def bwdSeeds (g : TraceGraph) : List TraceFrameE :=
  g.frames.filter (fun f => decide (f.target ∈ sinkRoots g))

/-- The frame identities marked by the fuelled forward traversal. -/
def markedFwdFuel (fuel : Nat) (g : TraceGraph) : List Nat :=
  visitMark (succFrames g.frames) fuel [] (fwdSeeds g)

/-- The frame identities marked by the fuelled backward traversal. -/
def markedBwdFuel (fuel : Nat) (g : TraceGraph) : List Nat :=
  visitMark (predFrames g.frames) fuel [] (bwdSeeds g)

/-- Fuel sufficient for both traversals of a graph. -/
def trimFuelBound (g : TraceGraph) : Nat :=
  max (visitMeasure g.frames [] (fwdSeeds g))
    (visitMeasure g.frames [] (bwdSeeds g))

/-- The trimming pass at a given fuel: frames marked by neither traversal
are discarded. -/
def trimGraphFuel (fuel : Nat) (g : TraceGraph) : TraceGraph :=
  { g with frames := g.frames.filter (fun f =>
      decide (f.fid ∈ markedFwdFuel fuel g ∨ f.fid ∈ markedBwdFuel fuel g)) }

/-- Modelled from the spec: the trimming pass of section 4.5 (the trimmer
code is not under src/), run with the sufficient fuel. -/
def trimGraph (g : TraceGraph) : TraceGraph :=
  trimGraphFuel (trimFuelBound g) g

/-- Modelled from the spec: the TrimTraceGraph step (section 4.5): a no-op
when the retain-all-models flag (`store_unused_models` in the run summary)
is set, otherwise the trimming pass. -/
def TrimTraceGraph.runStep (summary : SummaryBlob) (g : TraceGraph) :
    TraceGraph :=
  if summary.store_unused_models then g else trimGraph g

/-- Forward reachability from a set of root nodes: a frame leaving a root,
or a frame continuing a reachable frame in the forward direction. -/
inductive ReachFwd (frames : List TraceFrameE) (roots : List Nat) :
    TraceFrameE → Prop where
  | root (f : TraceFrameE) (hf : f ∈ frames) (hr : f.source ∈ roots) :
      ReachFwd frames roots f
  | step (f g : TraceFrameE) (hg : ReachFwd frames roots g) (hf : f ∈ frames)
      (hc : f.source = g.target) : ReachFwd frames roots f

/-- Backward reachability from a set of root nodes: a frame entering a
root, or a frame continuing a reachable frame in the backward direction. -/
inductive ReachBwd (frames : List TraceFrameE) (roots : List Nat) :
    TraceFrameE → Prop where
  | root (f : TraceFrameE) (hf : f ∈ frames) (hr : f.target ∈ roots) :
      ReachBwd frames roots f
  | step (f g : TraceFrameE) (hg : ReachBwd frames roots g) (hf : f ∈ frames)
      (hc : f.target = g.source) : ReachBwd frames roots f

theorem lookupTup_mem {κ : Type} [DecidableEq κ] {t : κ} {k : Nat}
    {prev : List (κ × Nat)} (h : lookupTup t prev = some k) : (t, k) ∈ prev := by
  induction prev with
  | nil => simp [lookupTup] at h
  | cons p rest ih =>
    obtain ⟨u, k0⟩ := p
    by_cases hu : u = t
    · subst hu
      simp [lookupTup] at h
      simp [h]
    · simp only [lookupTup, if_neg hu] at h
      exact List.mem_cons_of_mem _ (ih h)

theorem le_foldrMax {a : Nat} {l : List Nat} (h : a ∈ l) :
    a ≤ l.foldr (fun x y => max x y) 0 := by
  induction l with
  | nil => simp at h
  | cons b rest ih =>
    rcases List.mem_cons.mp h with h1 | h2
    · subst h1
      exact Nat.le_max_left _ _
    · exact Nat.le_trans (ih h2) (Nat.le_max_right _ _)

theorem mem_snd_lt_freshStart {κ : Type} {prev : List (κ × Nat)} {k : Nat}
    (h : k ∈ prev.map Prod.snd) : k < freshStart prev := by
  have := le_foldrMax h
  unfold freshStart
  omega

theorem lookupTup_lt_freshStart {κ : Type} [DecidableEq κ] {t : κ} {k : Nat}
    {prev : List (κ × Nat)} (h : lookupTup t prev = some k) :
    k < freshStart prev :=
  mem_snd_lt_freshStart (List.mem_map.mpr ⟨(t, k), lookupTup_mem h, rfl⟩)

theorem snd_nodup_inj {κ : Type} {prev : List (κ × Nat)} {a b : κ} {k : Nat}
    (hnd : (prev.map Prod.snd).Nodup) (ha : (a, k) ∈ prev)
    (hb : (b, k) ∈ prev) : a = b := by
  induction prev with
  | nil => simp at ha
  | cons p rest ih =>
    simp only [List.map_cons, List.nodup_cons] at hnd
    rcases List.mem_cons.mp ha with h1 | h1
    · rcases List.mem_cons.mp hb with h2 | h2
      · rw [← h1] at h2
        exact ((Prod.mk.injEq b k a k).mp h2 |>.1).symm
      · exfalso
        apply hnd.1
        rw [← h1]
        exact List.mem_map.mpr ⟨(b, k), h2, rfl⟩
    · rcases List.mem_cons.mp hb with h2 | h2
      · exfalso
        apply hnd.1
        rw [← h2]
        exact List.mem_map.mpr ⟨(a, k), h1, rfl⟩
      · exact ih hnd.2 h1 h2

theorem stabilize_fst {κ : Type} [DecidableEq κ] (prev : List (κ × Nat)) :
    ∀ (cur : List κ) (next : Nat),
      (stabilize prev cur next).map Prod.fst = cur := by
  intro cur
  induction cur with
  | nil => intro next; rfl
  | cons t ts ih =>
    intro next
    unfold stabilize
    cases h : lookupTup t prev with
    | some k => simp [ih]
    | none => simp [ih]

theorem stabilize_key_src {κ : Type} [DecidableEq κ] {prev : List (κ × Nat)} :
    ∀ {ts : List κ} {next k : Nat},
      k ∈ (stabilize prev ts next).map Prod.snd →
      (∃ u, u ∈ ts ∧ lookupTup u prev = some k) ∨ next ≤ k := by
  intro ts
  induction ts with
  | nil => intro next k h; simp [stabilize] at h
  | cons u us ih =>
    intro next k h
    unfold stabilize at h
    cases hu : lookupTup u prev with
    | some k0 =>
      rw [hu] at h
      simp only [List.map_cons, List.mem_cons] at h
      rcases h with h | h
      · exact Or.inl ⟨u, by simp, by rw [hu, h]⟩
      · rcases ih h with ⟨v, hv, hl⟩ | h2
        · exact Or.inl ⟨v, by simp [hv], hl⟩
        · exact Or.inr h2
    | none =>
      rw [hu] at h
      simp only [List.map_cons, List.mem_cons] at h
      rcases h with h | h
      · omega
      · rcases ih h with ⟨v, hv, hl⟩ | h2
        · exact Or.inl ⟨v, by simp [hv], hl⟩
        · exact Or.inr (by omega)

theorem stabilize_snd_nodup {κ : Type} [DecidableEq κ] {prev : List (κ × Nat)}
    (hsnd : (prev.map Prod.snd).Nodup) :
    ∀ {cur : List κ} {next : Nat}, cur.Nodup →
      (∀ v ∈ prev.map Prod.snd, v < next) →
      ((stabilize prev cur next).map Prod.snd).Nodup := by
  intro cur
  induction cur with
  | nil => intro next _ _; simp [stabilize]
  | cons t ts ih =>
    intro next hnd hlt
    rw [List.nodup_cons] at hnd
    unfold stabilize
    cases hl : lookupTup t prev with
    | some k =>
      simp only [List.map_cons]
      rw [List.nodup_cons]
      refine ⟨?_, ih hnd.2 hlt⟩
      intro hk
      rcases stabilize_key_src hk with ⟨u, hu, hul⟩ | hge
      · have h1 := lookupTup_mem hl
        have h2 := lookupTup_mem hul
        have : t = u := snd_nodup_inj hsnd h1 h2
        exact hnd.1 (this ▸ hu)
      · have hkm : k ∈ prev.map Prod.snd :=
          List.mem_map.mpr ⟨(t, k), lookupTup_mem hl, rfl⟩
        have := hlt k hkm
        omega
    | none =>
      simp only [List.map_cons]
      rw [List.nodup_cons]
      constructor
      · intro hk
        rcases stabilize_key_src hk with ⟨u, _, hul⟩ | hge
        · have : next ∈ prev.map Prod.snd :=
            List.mem_map.mpr ⟨(u, next), lookupTup_mem hul, rfl⟩
          have := hlt next this
          omega
        · omega
      · exact ih hnd.2 (fun v hv => Nat.lt_succ_of_lt (hlt v hv))

theorem stabilize_all_hit {κ : Type} [DecidableEq κ] {prev : List (κ × Nat)} :
    ∀ {cur : List κ} {next : Nat}, (∀ t ∈ cur, (lookupTup t prev).isSome) →
      stabilize prev cur next
        = cur.map (fun t => (t, (lookupTup t prev).getD 0)) := by
  intro cur
  induction cur with
  | nil => intro next _; rfl
  | cons t ts ih =>
    intro next h
    have ht := h t (by simp)
    unfold stabilize
    cases hl : lookupTup t prev with
    | some k => simp [ih (fun u hu => h u (by simp [hu])), hl]
    | none => rw [hl] at ht; simp at ht

theorem map_lookup_self {κ : Type} [DecidableEq κ] :
    ∀ {prev : List (κ × Nat)}, (prev.map Prod.fst).Nodup →
      (prev.map Prod.fst).map (fun t => (t, (lookupTup t prev).getD 0)) = prev := by
  intro prev
  induction prev with
  | nil => intro _; rfl
  | cons p rest ih =>
    intro hnd
    obtain ⟨u, k⟩ := p
    simp only [List.map_cons, List.nodup_cons] at hnd ⊢
    have hhead : lookupTup u ((u, k) :: rest) = some k := by
      simp [lookupTup]
    rw [hhead]
    refine congrArg₂ List.cons rfl ?_
    have hcongr : ∀ t ∈ rest.map Prod.fst,
        (t, (lookupTup t ((u, k) :: rest)).getD 0)
          = (t, (lookupTup t rest).getD 0) := by
      intro t htm
      have hne : u ≠ t := fun he => hnd.1 (he ▸ htm)
      simp [lookupTup, hne]
    rw [List.map_congr_left hcongr]
    exact ih hnd.2

theorem lookup_isSome_of_mem_fst {κ : Type} [DecidableEq κ]
    {prev : List (κ × Nat)} {t : κ} (h : t ∈ prev.map Prod.fst) :
    (lookupTup t prev).isSome := by
  induction prev with
  | nil => simp at h
  | cons p rest ih =>
    obtain ⟨u, k⟩ := p
    by_cases hu : u = t
    · simp [lookupTup, hu]
    · simp only [List.map_cons, List.mem_cons] at h
      rcases h with h | h
      · exact absurd h.symm hu
      · simp only [lookupTup, if_neg hu]
        exact ih h

theorem stabilize_mem_of_hit {κ : Type} [DecidableEq κ] {prev : List (κ × Nat)}
    {t : κ} {k : Nat} (hl : lookupTup t prev = some k) :
    ∀ {cur : List κ} {next : Nat}, t ∈ cur →
      (t, k) ∈ stabilize prev cur next := by
  intro cur
  induction cur with
  | nil => intro next h; simp at h
  | cons u us ih =>
    intro next hm
    unfold stabilize
    rcases List.mem_cons.mp hm with h | h
    · subst h
      rw [hl]
      exact List.mem_cons_self _ _
    · cases hl2 : lookupTup u prev with
      | some k2 => exact List.mem_cons_of_mem _ (ih h)
      | none => exact List.mem_cons_of_mem _ (ih h)

theorem stabilize_fresh_ge {κ : Type} [DecidableEq κ] {prev : List (κ × Nat)} :
    ∀ {cur : List κ} {next : Nat} {t : κ} {k : Nat},
      (t, k) ∈ stabilize prev cur next → lookupTup t prev = none →
      next ≤ k := by
  intro cur
  induction cur with
  | nil => intro next t k h _; simp [stabilize] at h
  | cons u us ih =>
    intro next t k h hn
    unfold stabilize at h
    cases hl : lookupTup u prev with
    | some k0 =>
      rw [hl] at h
      rcases List.mem_cons.mp h with h | h
      · obtain ⟨h1, _⟩ := Prod.mk.injEq t k u k0 |>.mp h
        subst h1
        rw [hl] at hn
        exact absurd hn (by simp)
      · exact ih h hn
    | none =>
      rw [hl] at h
      rcases List.mem_cons.mp h with h | h
      · obtain ⟨_, h2⟩ := Prod.mk.injEq t k u next |>.mp h
        omega
      · have := ih h hn
        omega

theorem stabilizeRun_rerun {κ : Type} [DecidableEq κ] {prev : List (κ × Nat)}
    (hfst : (prev.map Prod.fst).Nodup) :
    stabilizeRun prev (prev.map Prod.fst) = prev := by
  unfold stabilizeRun
  rw [stabilize_all_hit (fun t ht => lookup_isSome_of_mem_fst ht)]
  exact map_lookup_self hfst

theorem added_rerun_nil {κ : Type} [DecidableEq κ] (prev : List (κ × Nat)) :
    addedEntities prev (prev.map Prod.fst) = [] := by
  unfold addedEntities
  rw [List.filter_eq_nil_iff]
  intro t ht
  have := lookup_isSome_of_mem_fst ht
  simp only [Option.isNone]
  cases h : lookupTup t prev with
  | none => rw [h] at this; simp at this
  | some k => simp

theorem removed_rerun_nil {κ : Type} [DecidableEq κ] (prev : List (κ × Nat)) :
    removedEntities prev (prev.map Prod.fst) = [] := by
  unfold removedEntities
  rw [List.filter_eq_nil_iff]
  intro t ht
  simp [ht]

theorem internOne_contents (k : TextKind) (s : String) (st : InternTable) :
    internContents (internOne k s st) = insert (k, s) (internContents st) := by
  unfold internOne internContents
  by_cases h : (k, s) ∈ st.entries.map (fun e => (e.1, e.2.1))
  · rw [if_pos h]
    exact (Finset.insert_eq_self.mpr (List.mem_toFinset.mpr h)).symm
  · rw [if_neg h]
    simp

theorem internList_contents :
    ∀ (ps : List (TextKind × String)) (st : InternTable),
      internContents (internList ps st) = internContents st ∪ ps.toFinset := by
  intro ps
  induction ps with
  | nil => intro st; simp [internList]
  | cons p ps ih =>
    intro st
    rw [internList, ih, internOne_contents]
    rw [List.toFinset_cons, Finset.insert_union, Finset.union_insert]

theorem buildIntern_contents :
    ∀ (rs : List ParsedRecord) (st : InternTable),
      internContents (buildIntern rs st)
        = internContents st ∪ (rs.flatMap recordTexts).toFinset := by
  intro rs
  induction rs with
  | nil => intro st; simp [buildIntern]
  | cons r rs ih =>
    intro st
    rw [buildIntern, ih, internList_contents]
    rw [List.flatMap_cons, List.toFinset_append, Finset.union_assoc]

theorem builderSharedTexts_eq (records : List ParsedRecord) :
    builderSharedTexts records = (records.flatMap recordTexts).toFinset := by
  unfold builderSharedTexts
  rw [buildIntern_contents]
  have : internContents ⟨0, []⟩ = ∅ := rfl
  rw [this, Finset.empty_union]

theorem map_nodup_inj {α β : Type} {f : α → β} {l : List α} {a b : α}
    (hnd : (l.map f).Nodup) (ha : a ∈ l) (hb : b ∈ l) (h : f a = f b) :
    a = b := by
  induction l with
  | nil => simp at ha
  | cons x rest ih =>
    simp only [List.map_cons, List.nodup_cons] at hnd
    rcases List.mem_cons.mp ha with h1 | h1
    · rcases List.mem_cons.mp hb with h2 | h2
      · rw [h1, h2]
      · exfalso
        apply hnd.1
        rw [← h1, h]
        exact List.mem_map.mpr ⟨b, h2, rfl⟩
    · rcases List.mem_cons.mp hb with h2 | h2
      · exfalso
        apply hnd.1
        rw [← h2, ← h]
        exact List.mem_map.mpr ⟨a, h1, rfl⟩
      · exact ih hnd.2 h1 h2

theorem unvisited_mono_work {frames : List TraceFrameE} {visited : List Nat}
    {f : TraceFrameE} {work : List TraceFrameE} :
    unvisitedCard frames visited work
      ≤ unvisitedCard frames visited (f :: work) := by
  apply Finset.card_le_card
  apply Finset.sdiff_subset_sdiff _ (le_refl _)
  intro x hx
  simp only [List.toFinset_append, Finset.mem_union, List.mem_toFinset,
    List.map_cons, List.toFinset_cons, Finset.mem_insert] at hx ⊢
  tauto

theorem unvisited_decrease {frames : List TraceFrameE} {visited : List Nat}
    {f : TraceFrameE} {nf work : List TraceFrameE}
    (hnext : ∀ g ∈ nf, g ∈ frames) (hnv : f.fid ∉ visited) :
    unvisitedCard frames (f.fid :: visited) (nf ++ work) + 1
      ≤ unvisitedCard frames visited (f :: work) := by
  unfold unvisitedCard
  have hmem : f.fid ∈ (frames.map TraceFrameE.fid
      ++ (f :: work).map TraceFrameE.fid).toFinset \ visited.toFinset := by
    rw [Finset.mem_sdiff]
    constructor
    · simp only [List.toFinset_append, Finset.mem_union, List.mem_toFinset]
      right
      exact List.mem_map.mpr ⟨f, List.mem_cons_self _ _, rfl⟩
    · rw [List.mem_toFinset]
      exact hnv
  have hsub : (frames.map TraceFrameE.fid
        ++ (nf ++ work).map TraceFrameE.fid).toFinset
        \ (f.fid :: visited).toFinset
      ⊆ ((frames.map TraceFrameE.fid
        ++ (f :: work).map TraceFrameE.fid).toFinset
        \ visited.toFinset).erase f.fid := by
    intro x hx
    rw [Finset.mem_sdiff] at hx
    obtain ⟨hx1, hx2⟩ := hx
    rw [List.toFinset_cons, Finset.mem_insert] at hx2
    push_neg at hx2
    rw [Finset.mem_erase]
    refine ⟨hx2.1, ?_⟩
    rw [Finset.mem_sdiff]
    refine ⟨?_, hx2.2⟩
    simp only [List.toFinset_append, Finset.mem_union, List.mem_toFinset] at hx1 ⊢
    rcases hx1 with hx1 | hx1
    · exact Or.inl hx1
    · rw [List.map_append, List.mem_append] at hx1
      rcases hx1 with hx1 | hx1
      · left
        obtain ⟨g, hg, hgx⟩ := List.mem_map.mp hx1
        exact List.mem_map.mpr ⟨g, hnext g hg, hgx⟩
      · right
        simp only [List.map_cons, List.mem_cons]
        exact Or.inr hx1
  have h1 := Finset.card_le_card hsub
  rw [Finset.card_erase_of_mem hmem] at h1
  have h2 := Finset.card_pos.mpr ⟨f.fid, hmem⟩
  omega

theorem visitMark_fuel_succ {frames : List TraceFrameE}
    {next : TraceFrameE → List TraceFrameE}
    (hnext : ∀ f, ∀ g ∈ next f, g ∈ frames)
    (hlen : ∀ f, (next f).length ≤ frames.length) :
    ∀ (fuel : Nat) (visited : List Nat) (work : List TraceFrameE),
      visitMeasure frames visited work ≤ fuel →
      visitMark next (fuel + 1) visited work
        = visitMark next fuel visited work := by
  intro fuel
  induction fuel with
  | zero =>
    intro visited work h
    unfold visitMeasure at h
    cases work with
    | nil => rfl
    | cons f w => simp [List.length_cons] at h
  | succ fuel ih =>
    intro visited work h
    cases work with
    | nil => rfl
    | cons f w =>
      by_cases hv : f.fid ∈ visited
      · show visitMark next (fuel + 1 + 1) visited (f :: w)
            = visitMark next (fuel + 1) visited (f :: w)
        rw [visitMark, visitMark, if_pos hv, if_pos hv]
        apply ih
        have h1 : unvisitedCard frames visited w
            ≤ unvisitedCard frames visited (f :: w) := unvisited_mono_work
        have h2 : (frames.length + 1) * unvisitedCard frames visited w
            ≤ (frames.length + 1) * unvisitedCard frames visited (f :: w) :=
          Nat.mul_le_mul_left _ h1
        unfold visitMeasure at h ⊢
        rw [List.length_cons] at h
        omega
      · show visitMark next (fuel + 1 + 1) visited (f :: w)
            = visitMark next (fuel + 1) visited (f :: w)
        rw [visitMark, visitMark, if_neg hv, if_neg hv]
        apply ih
        have hdec := @unvisited_decrease frames visited f (next f) w
          (hnext f) hv
        have h2 : (frames.length + 1)
              * (unvisitedCard frames (f.fid :: visited) (next f ++ w) + 1)
            ≤ (frames.length + 1) * unvisitedCard frames visited (f :: w) :=
          Nat.mul_le_mul_left _ hdec
        rw [Nat.mul_add, Nat.mul_one] at h2
        have hlenf := hlen f
        unfold visitMeasure at h ⊢
        rw [List.length_cons] at h
        rw [List.length_append]
        omega

theorem visitMark_add_stable {frames : List TraceFrameE}
    {next : TraceFrameE → List TraceFrameE}
    (hnext : ∀ f, ∀ g ∈ next f, g ∈ frames)
    (hlen : ∀ f, (next f).length ≤ frames.length) :
    ∀ (k : Nat) (visited : List Nat) (work : List TraceFrameE),
      visitMark next (visitMeasure frames visited work + k) visited work
        = visitMark next (visitMeasure frames visited work) visited work := by
  intro k
  induction k with
  | zero => intro visited work; rfl
  | succ k ih =>
    intro visited work
    have heq : visitMeasure frames visited work + (k + 1)
        = (visitMeasure frames visited work + k) + 1 := rfl
    rw [heq, visitMark_fuel_succ hnext hlen _ _ _ (by omega), ih]

theorem visitMark_ge_stable {frames : List TraceFrameE}
    {next : TraceFrameE → List TraceFrameE}
    (hnext : ∀ f, ∀ g ∈ next f, g ∈ frames)
    (hlen : ∀ f, (next f).length ≤ frames.length)
    {fuel : Nat} {visited : List Nat} {work : List TraceFrameE}
    (h : visitMeasure frames visited work ≤ fuel) :
    visitMark next fuel visited work
      = visitMark next (visitMeasure frames visited work) visited work := by
  obtain ⟨k, hk⟩ := Nat.exists_eq_add_of_le h
  rw [hk]
  exact visitMark_add_stable hnext hlen k visited work

theorem succFrames_mem {frames : List TraceFrameE} (f : TraceFrameE) :
    ∀ g ∈ succFrames frames f, g ∈ frames := by
  intro g hg
  exact (List.mem_filter.mp hg).1

theorem succFrames_len {frames : List TraceFrameE} (f : TraceFrameE) :
    (succFrames frames f).length ≤ frames.length :=
  List.length_filter_le _ _

theorem predFrames_mem {frames : List TraceFrameE} (f : TraceFrameE) :
    ∀ g ∈ predFrames frames f, g ∈ frames := by
  intro g hg
  exact (List.mem_filter.mp hg).1

theorem predFrames_len {frames : List TraceFrameE} (f : TraceFrameE) :
    (predFrames frames f).length ≤ frames.length :=
  List.length_filter_le _ _

theorem markedFwdFuel_stable {g : TraceGraph} {fuel : Nat}
    (h : visitMeasure g.frames [] (fwdSeeds g) ≤ fuel) :
    markedFwdFuel fuel g
      = markedFwdFuel (visitMeasure g.frames [] (fwdSeeds g)) g :=
  visitMark_ge_stable succFrames_mem succFrames_len h

theorem markedBwdFuel_stable {g : TraceGraph} {fuel : Nat}
    (h : visitMeasure g.frames [] (bwdSeeds g) ≤ fuel) :
    markedBwdFuel fuel g
      = markedBwdFuel (visitMeasure g.frames [] (bwdSeeds g)) g :=
  visitMark_ge_stable predFrames_mem predFrames_len h

theorem visitMark_sound {frames : List TraceFrameE}
    {next : TraceFrameE → List TraceFrameE} {R : TraceFrameE → Prop}
    (hnext : ∀ f, ∀ g ∈ next f, g ∈ frames)
    (hR : ∀ f g, R f → g ∈ next f → R g) :
    ∀ (fuel : Nat) (visited : List Nat) (work : List TraceFrameE),
      (∀ i ∈ visited, ∃ f, f ∈ frames ∧ f.fid = i ∧ R f) →
      (∀ f ∈ work, f ∈ frames ∧ R f) →
      ∀ i ∈ visitMark next fuel visited work,
        ∃ f, f ∈ frames ∧ f.fid = i ∧ R f := by
  intro fuel
  induction fuel with
  | zero => intro visited work hv _ i hi; exact hv i hi
  | succ fuel ih =>
    intro visited work hv hw i hi
    cases work with
    | nil => exact hv i hi
    | cons f w =>
      rw [visitMark] at hi
      by_cases hvf : f.fid ∈ visited
      · rw [if_pos hvf] at hi
        exact ih visited w hv (fun u hu => hw u (List.mem_cons_of_mem _ hu)) i hi
      · rw [if_neg hvf] at hi
        have hf := hw f (List.mem_cons_self _ _)
        refine ih _ _ ?_ ?_ i hi
        · intro j hj
          rcases List.mem_cons.mp hj with hj | hj
          · exact ⟨f, hf.1, hj.symm, hf.2⟩
          · exact hv j hj
        · intro u hu
          rcases List.mem_append.mp hu with hu | hu
          · exact ⟨hnext f u hu, hR f u hf.2 hu⟩
          · exact hw u (List.mem_cons_of_mem _ hu)

theorem markedFwd_sound {g : TraceGraph} {fuel : Nat} {i : Nat}
    (hi : i ∈ markedFwdFuel fuel g) :
    ∃ f, f ∈ g.frames ∧ f.fid = i ∧ ReachFwd g.frames (sourceRoots g) f := by
  refine visitMark_sound succFrames_mem ?_ fuel [] (fwdSeeds g)
    (by intro j hj; simp at hj) ?_ i hi
  · intro f u hRf hu
    have hu2 := List.mem_filter.mp hu
    exact ReachFwd.step u f hRf hu2.1 (of_decide_eq_true hu2.2)
  · intro f hf
    have hf2 := List.mem_filter.mp hf
    exact ⟨hf2.1, ReachFwd.root f hf2.1 (of_decide_eq_true hf2.2)⟩

theorem markedBwd_sound {g : TraceGraph} {fuel : Nat} {i : Nat}
    (hi : i ∈ markedBwdFuel fuel g) :
    ∃ f, f ∈ g.frames ∧ f.fid = i ∧ ReachBwd g.frames (sinkRoots g) f := by
  refine visitMark_sound predFrames_mem ?_ fuel [] (bwdSeeds g)
    (by intro j hj; simp at hj) ?_ i hi
  · intro f u hRf hu
    have hu2 := List.mem_filter.mp hu
    exact ReachBwd.step u f hRf hu2.1 (of_decide_eq_true hu2.2)
  · intro f hf
    have hf2 := List.mem_filter.mp hf
    exact ⟨hf2.1, ReachBwd.root f hf2.1 (of_decide_eq_true hf2.2)⟩

theorem visitMark_nodup {next : TraceFrameE → List TraceFrameE} :
    ∀ (fuel : Nat) (visited : List Nat) (work : List TraceFrameE),
      visited.Nodup → (visitMark next fuel visited work).Nodup := by
  intro fuel
  induction fuel with
  | zero => intro v w h; exact h
  | succ fuel ih =>
    intro v w h
    cases w with
    | nil => exact h
    | cons f w =>
      rw [visitMark]
      by_cases hv : f.fid ∈ v
      · rw [if_pos hv]
        exact ih _ _ h
      · rw [if_neg hv]
        exact ih _ _ (List.nodup_cons.mpr ⟨hv, h⟩)

theorem issueHandles_relabel (f : Nat → Nat) (l : List IssueRecord) :
    issueHandles (relabelRows f l) = issueHandles l := by
  unfold issueHandles relabelRows
  rw [List.map_map]
  rfl

theorem checkExists_error_shape {fs : List FilePath} {p : FilePath}
    {e : CliError} (h : checkExists fs p = Except.error e) :
    e = CliError.notFound p ∧ p ∉ fs := by
  unfold checkExists at h
  by_cases hp : p ∈ fs
  · rw [if_pos hp] at h
    exact absurd h (by simp)
  · rw [if_neg hp] at h
    refine ⟨?_, hp⟩
    injection h with h2
    exact h2.symm

theorem checkExistsOpt_error_shape {fs : List FilePath} {op : Option FilePath}
    {e : CliError} (h : checkExistsOpt fs op = Except.error e) :
    ∃ q, op = some q ∧ e = CliError.notFound q ∧ q ∉ fs := by
  cases op with
  | none => exact absurd h (by simp [checkExistsOpt])
  | some q =>
    obtain ⟨he, hq⟩ := checkExists_error_shape h
    exact ⟨q, rfl, he, hq⟩

theorem exceptSeq_error {a b : Except CliError Unit} {e : CliError}
    (h : exceptSeq a b = Except.error e) :
    a = Except.error e ∨ b = Except.error e := by
  cases a with
  | error e2 =>
    left
    exact h
  | ok u =>
    right
    exact h

theorem exceptSeq_ok {a b : Except CliError Unit} {u : Unit}
    (h : exceptSeq a b = Except.ok u) : b = Except.ok u := by
  cases a with
  | error e2 => exact absurd h (by simp [exceptSeq])
  | ok v => exact h

theorem exceptSeq_ok_left {a b : Except CliError Unit} {u : Unit}
    (h : exceptSeq a b = Except.ok u) : a = Except.ok () := by
  cases a with
  | error e2 => exact absurd h (by simp [exceptSeq])
  | ok v => rfl

theorem checkExistsOpt_ok {fs : List FilePath} {p : FilePath} {u : Unit}
    (h : checkExistsOpt fs (some p) = Except.ok u) : p ∈ fs := by
  have h2 : checkExists fs p = Except.ok u := h
  unfold checkExists at h2
  by_cases hp : p ∈ fs
  · exact hp
  · rw [if_neg hp] at h2
    exact absurd h2 (by simp)

theorem analyzeValidate_ok_means {fs : List FilePath} {o : AnalyzeOptions}
    {u : Unit} (h : analyzeValidate fs o = Except.ok u) :
    (∀ p, o.previous_input = some p → p ∈ fs)
    ∧ (∀ p, o.linemap = some p → p ∈ fs) := by
  unfold analyzeValidate at h
  have h2 := exceptSeq_ok h
  have h3 := exceptSeq_ok_left h2
  have h4 := exceptSeq_ok h2
  have h5 := exceptSeq_ok_left h4
  constructor
  · intro p hp
    rw [hp] at h3
    exact checkExistsOpt_ok h3
  · intro p hp
    rw [hp] at h5
    exact checkExistsOpt_ok h5

theorem analyzeValidate_error_shape {fs : List FilePath} {o : AnalyzeOptions}
    {e : CliError} (h : analyzeValidate fs o = Except.error e) :
    ∃ q, e = CliError.notFound q ∧ q ∉ fs := by
  unfold analyzeValidate at h
  rcases exceptSeq_error h with h | h
  · obtain ⟨q, _, he, hq⟩ := checkExistsOpt_error_shape h
    exact ⟨q, he, hq⟩
  rcases exceptSeq_error h with h | h
  · obtain ⟨q, _, he, hq⟩ := checkExistsOpt_error_shape h
    exact ⟨q, he, hq⟩
  rcases exceptSeq_error h with h | h
  · obtain ⟨q, _, he, hq⟩ := checkExistsOpt_error_shape h
    exact ⟨q, he, hq⟩
  · obtain ⟨he, hq⟩ := checkExists_error_shape h
    exact ⟨o.input_file, he, hq⟩

/-- C1: the Primary-Key Stabilizer assigns every current entity a key;
entities whose identity tuple matches the previous run's table reuse the
previous key, misses get a freshly allocated key at or above the fresh
threshold; no two simultaneously-live entities get the same key; and
re-running on an identical entity set against the previous table as
reference reuses every key with zero added and zero removed entities. -/
theorem stabilizer_key_assignment {κ : Type} [DecidableEq κ]
    (prev : List (κ × Nat)) (cur : List κ)
    (hfst : (prev.map Prod.fst).Nodup)
    (hsnd : (prev.map Prod.snd).Nodup)
    (hcur : cur.Nodup) :
    ((stabilizeRun prev cur).map Prod.fst = cur)
    ∧ (∀ t k, t ∈ cur → lookupTup t prev = some k →
        (t, k) ∈ stabilizeRun prev cur)
    ∧ (∀ t k, (t, k) ∈ stabilizeRun prev cur → lookupTup t prev = none →
        freshStart prev ≤ k)
    ∧ ((stabilizeRun prev cur).map Prod.snd).Nodup
    ∧ (stabilizeRun prev (prev.map Prod.fst) = prev
       ∧ addedEntities prev (prev.map Prod.fst) = []
       ∧ removedEntities prev (prev.map Prod.fst) = []) := by
  refine ⟨stabilize_fst prev cur _, ?_, ?_, ?_,
    stabilizeRun_rerun hfst, added_rerun_nil prev, removed_rerun_nil prev⟩
  · intro t k ht hl
    exact stabilize_mem_of_hit hl ht
  · intro t k hm hl
    exact stabilize_fresh_ge hm hl
  · exact stabilize_snd_nodup hsnd hcur
      (fun v hv => mem_snd_lt_freshStart hv)

/-- C1 witness: the stabilizer theorem applied at a concrete previous table
and graph. -/
theorem stabilizer_key_assignment_witness :
    (([(10, 0), (11, 1)] : List (Nat × Nat)).map Prod.fst).Nodup
    ∧ (([(10, 0), (11, 1)] : List (Nat × Nat)).map Prod.snd).Nodup
    ∧ ([11, 12] : List Nat).Nodup
    ∧ (((stabilizeRun [(10, 0), (11, 1)] [11, 12]).map Prod.fst = [11, 12])
      ∧ (∀ t k, t ∈ [11, 12] → lookupTup t [(10, 0), (11, 1)] = some k →
          (t, k) ∈ stabilizeRun [(10, 0), (11, 1)] [11, 12])
      ∧ (∀ t k, (t, k) ∈ stabilizeRun [(10, 0), (11, 1)] [11, 12] →
          lookupTup t [(10, 0), (11, 1)] = none →
          freshStart [(10, 0), (11, 1)] ≤ k)
      ∧ ((stabilizeRun [(10, 0), (11, 1)] [11, 12]).map Prod.snd).Nodup
      ∧ (stabilizeRun [(10, 0), (11, 1)]
            (([(10, 0), (11, 1)] : List (Nat × Nat)).map Prod.fst)
            = [(10, 0), (11, 1)]
        ∧ addedEntities [(10, 0), (11, 1)]
            (([(10, 0), (11, 1)] : List (Nat × Nat)).map Prod.fst) = []
        ∧ removedEntities [(10, 0), (11, 1)]
            (([(10, 0), (11, 1)] : List (Nat × Nat)).map Prod.fst) = [])) :=
  ⟨by decide, by decide, by decide,
   stabilizer_key_assignment [(10, 0), (11, 1)] [11, 12]
     (by decide) (by decide) (by decide)⟩

/-- C2: any failure during the Saver's transaction rolls the whole
transaction back: the observable database equals the pre-run database
exactly — same value, same row counts, same Run table — so a failed run
leaves no trace and no partially-written run is observable. -/
theorem saver_rollback (db : Database) (ops : List WriteOp)
    (e : StorageError) (h : runTransaction db ops = Except.error e) :
    DatabaseSaver.save db ops = (db, Except.error e)
    ∧ rowCounts (DatabaseSaver.save db ops).1 = rowCounts db
    ∧ (DatabaseSaver.save db ops).1.runs = db.runs := by
  have hs : DatabaseSaver.save db ops = (db, Except.error e) := by
    unfold DatabaseSaver.save
    rw [h]
  exact ⟨hs, by rw [hs], by rw [hs]⟩

/-- C2 witness: a failure injected mid-transaction, after a write already
changed the working state, leaves the observable database untouched. -/
theorem saver_rollback_witness :
    runTransaction ⟨[], [], [], []⟩
        [fun d => Except.ok { d with issues := 7 :: d.issues },
         fun _ => Except.error StorageError.storageError]
      = Except.error StorageError.storageError
    ∧ (DatabaseSaver.save ⟨[], [], [], []⟩
          [fun d => Except.ok { d with issues := 7 :: d.issues },
           fun _ => Except.error StorageError.storageError]
        = (⟨[], [], [], []⟩, Except.error StorageError.storageError)
      ∧ rowCounts (DatabaseSaver.save ⟨[], [], [], []⟩
          [fun d => Except.ok { d with issues := 7 :: d.issues },
           fun _ => Except.error StorageError.storageError]).1
        = rowCounts ⟨[], [], [], []⟩
      ∧ (DatabaseSaver.save ⟨[], [], [], []⟩
          [fun d => Except.ok { d with issues := 7 :: d.issues },
           fun _ => Except.error StorageError.storageError]).1.runs
        = Database.runs ⟨[], [], [], []⟩) :=
  ⟨rfl, saver_rollback ⟨[], [], [], []⟩
    [fun d => Except.ok { d with issues := 7 :: d.issues },
     fun _ => Except.error StorageError.storageError]
    StorageError.storageError rfl⟩

/-- C3 counterexample: the pipeline declared by `analyze` is not the
claimed sequence Parser, Builder, Trimmer, Stabilizer, Saver: no step
realizes the Stabilizer (key generation is a constructor argument of
`DatabaseSaver`, not a step), and a `CreateDatabase` step runs between the
parser and the builder. -/
theorem analyze_step_order_mismatch :
    analyzePipelineSteps.map specRole
      ≠ [SpecComponent.parser, SpecComponent.builder, SpecComponent.trimmer,
         SpecComponent.stabilizer, SpecComponent.saver]
    ∧ SpecComponent.stabilizer ∉ analyzePipelineSteps.map specRole
    ∧ analyzePipelineSteps.map specRole
      = [SpecComponent.parser, SpecComponent.databaseSetup,
         SpecComponent.builder, SpecComponent.trimmer, SpecComponent.saver] :=
  ⟨by decide, by decide, by decide⟩

/-- C3 (amended): the `analyze` pipeline executes its declared steps —
the parser, `CreateDatabase`, `ModelGenerator` (the Builder),
`TrimTraceGraph` (the Trimmer), `DatabaseSaver` (the Saver, which carries
the `PrimaryKeyGenerator`) — strictly sequentially in that order, each step
consuming the previous step's output state, with no other ordering. -/
theorem analyze_pipeline_sequential {D : Type} (impl : StepKind → D → D)
    (d : D) :
    Pipeline.runTrace (analyzePipeline impl) d
      = (impl StepKind.databaseSaver (impl StepKind.trimTraceGraph
          (impl StepKind.modelGenerator (impl StepKind.createDatabase
            (impl StepKind.baseParser d)))),
         analyzePipelineSteps) := rfl

/-- C4: the diff of a current against a reference run computes three
pairwise-disjoint handle sets — fixed (reference minus current), new
(current minus reference), unchanged (reference intersect current) —
independent of the numeric row ids of either run, and on reference
handles A, B against current handles B, C yields fixed A, new C,
unchanged B. -/
theorem diff_three_sets :
    (∀ cur ref : List IssueRecord,
      (runDiff cur ref).1 ∩ (runDiff cur ref).2.1 = ∅
      ∧ (runDiff cur ref).1 ∩ (runDiff cur ref).2.2 = ∅
      ∧ (runDiff cur ref).2.1 ∩ (runDiff cur ref).2.2 = ∅
      ∧ (∀ h : String, h ∈ (runDiff cur ref).1
          ↔ h ∈ issueHandles ref ∧ h ∉ issueHandles cur)
      ∧ (∀ h : String, h ∈ (runDiff cur ref).2.1
          ↔ h ∈ issueHandles cur ∧ h ∉ issueHandles ref)
      ∧ (∀ h : String, h ∈ (runDiff cur ref).2.2
          ↔ h ∈ issueHandles ref ∧ h ∈ issueHandles cur))
    ∧ (∀ (f g : Nat → Nat) (cur ref : List IssueRecord),
        runDiff (relabelRows f cur) (relabelRows g ref) = runDiff cur ref)
    ∧ runDiff [⟨1, "B"⟩, ⟨2, "C"⟩] [⟨3, "A"⟩, ⟨4, "B"⟩]
        = ({"A"}, {"C"}, {"B"}) := by
  refine ⟨?_, ?_, ?_⟩
  · intro cur ref
    refine ⟨?_, ?_, ?_, ?_, ?_, ?_⟩
    · ext x
      simp only [runDiff, Finset.mem_inter, Finset.mem_sdiff,
        Finset.not_mem_empty, iff_false]
      tauto
    · ext x
      simp only [runDiff, Finset.mem_inter, Finset.mem_sdiff,
        Finset.not_mem_empty, iff_false]
      tauto
    · ext x
      simp only [runDiff, Finset.mem_inter, Finset.mem_sdiff,
        Finset.not_mem_empty, iff_false]
      tauto
    · intro h
      simp [runDiff]
    · intro h
      simp [runDiff]
    · intro h
      simp only [runDiff, Finset.mem_inter]
  · intro f g cur ref
    unfold runDiff
    rw [issueHandles_relabel, issueHandles_relabel]
  · decide

/-- C5: with the retain-all-models flag unset, every TraceFrame surviving
the trim is reachable from some issue's source root by forward edges or
from some issue's sink root by backward edges; frames marked by neither
traversal are discarded. -/
theorem trim_soundness (summary : SummaryBlob) (g : TraceGraph)
    (hflag : summary.store_unused_models = false)
    (hnd : (g.frames.map TraceFrameE.fid).Nodup) :
    (∀ f ∈ (TrimTraceGraph.runStep summary g).frames,
      ReachFwd g.frames (sourceRoots g) f ∨ ReachBwd g.frames (sinkRoots g) f)
    ∧ (∀ f ∈ g.frames,
        f.fid ∉ markedFwdFuel (trimFuelBound g) g →
        f.fid ∉ markedBwdFuel (trimFuelBound g) g →
        f ∉ (TrimTraceGraph.runStep summary g).frames) := by
  have hrun : TrimTraceGraph.runStep summary g = trimGraph g := by
    simp [TrimTraceGraph.runStep, hflag]
  rw [hrun]
  constructor
  · intro f hf
    unfold trimGraph trimGraphFuel at hf
    simp only [List.mem_filter] at hf
    obtain ⟨hfg, hmark⟩ := hf
    rcases of_decide_eq_true hmark with hm | hm
    · obtain ⟨f2, hf2g, hfid, hreach⟩ := markedFwd_sound hm
      have he : f2 = f := map_nodup_inj hnd hf2g hfg hfid
      exact Or.inl (he ▸ hreach)
    · obtain ⟨f2, hf2g, hfid, hreach⟩ := markedBwd_sound hm
      have he : f2 = f := map_nodup_inj hnd hf2g hfg hfid
      exact Or.inr (he ▸ hreach)
  · intro f _ hnf hnb hmem
    unfold trimGraph trimGraphFuel at hmem
    simp only [List.mem_filter] at hmem
    rcases of_decide_eq_true hmem.2 with hm | hm
    · exact hnf hm
    · exact hnb hm

/-- C5 witness: the trim-soundness theorem applied at a concrete two-frame
graph with one issue. -/
theorem trim_soundness_witness :
    (⟨none, none, none, none, none, false, none, none⟩ :
        SummaryBlob).store_unused_models = false
    ∧ ((⟨[⟨0, 1, 2⟩, ⟨1, 2, 3⟩], [⟨1, 3⟩]⟩ :
        TraceGraph).frames.map TraceFrameE.fid).Nodup
    ∧ ((∀ f ∈ (TrimTraceGraph.runStep
            ⟨none, none, none, none, none, false, none, none⟩
            ⟨[⟨0, 1, 2⟩, ⟨1, 2, 3⟩], [⟨1, 3⟩]⟩).frames,
        ReachFwd (⟨[⟨0, 1, 2⟩, ⟨1, 2, 3⟩], [⟨1, 3⟩]⟩ : TraceGraph).frames
          (sourceRoots ⟨[⟨0, 1, 2⟩, ⟨1, 2, 3⟩], [⟨1, 3⟩]⟩) f
        ∨ ReachBwd (⟨[⟨0, 1, 2⟩, ⟨1, 2, 3⟩], [⟨1, 3⟩]⟩ : TraceGraph).frames
          (sinkRoots ⟨[⟨0, 1, 2⟩, ⟨1, 2, 3⟩], [⟨1, 3⟩]⟩) f)
      ∧ (∀ f ∈ (⟨[⟨0, 1, 2⟩, ⟨1, 2, 3⟩], [⟨1, 3⟩]⟩ : TraceGraph).frames,
          f.fid ∉ markedFwdFuel
            (trimFuelBound ⟨[⟨0, 1, 2⟩, ⟨1, 2, 3⟩], [⟨1, 3⟩]⟩)
            ⟨[⟨0, 1, 2⟩, ⟨1, 2, 3⟩], [⟨1, 3⟩]⟩ →
          f.fid ∉ markedBwdFuel
            (trimFuelBound ⟨[⟨0, 1, 2⟩, ⟨1, 2, 3⟩], [⟨1, 3⟩]⟩)
            ⟨[⟨0, 1, 2⟩, ⟨1, 2, 3⟩], [⟨1, 3⟩]⟩ →
          f ∉ (TrimTraceGraph.runStep
            ⟨none, none, none, none, none, false, none, none⟩
            ⟨[⟨0, 1, 2⟩, ⟨1, 2, 3⟩], [⟨1, 3⟩]⟩).frames)) :=
  ⟨rfl, by decide,
   trim_soundness ⟨none, none, none, none, none, false, none, none⟩
     ⟨[⟨0, 1, 2⟩, ⟨1, 2, 3⟩], [⟨1, 3⟩]⟩ rfl (by decide)⟩

/-- C6: when the retain-all-models flag (`--store-unused-models`) is set on
an `analyze` invocation, the Trimmer step is the identity on every trace
graph. -/
theorem analyze_retain_all_trims_nothing (repo : Option String)
    (o : AnalyzeOptions) (g : TraceGraph)
    (h : o.store_unused_models = true) :
    TrimTraceGraph.runStep (analyzeSetup repo o).1 g = g := by
  have hs : (analyzeSetup repo o).1.store_unused_models = true := by
    simp [analyzeSetup, h]
  simp [TrimTraceGraph.runStep, hs]

/-- C6 witness: the no-op trim theorem applied to a concrete invocation
with the flag set and a concrete graph. -/
theorem analyze_retain_all_trims_nothing_witness :
    (⟨none, none, none, none, none, none, none, none, true, "in.json"⟩ :
        AnalyzeOptions).store_unused_models = true
    ∧ TrimTraceGraph.runStep
        (analyzeSetup none
          ⟨none, none, none, none, none, none, none, none, true, "in.json"⟩).1
        ⟨[⟨0, 1, 2⟩], []⟩
      = ⟨[⟨0, 1, 2⟩], []⟩ :=
  ⟨rfl, analyze_retain_all_trims_nothing none
    ⟨none, none, none, none, none, none, none, none, true, "in.json"⟩
    ⟨[⟨0, 1, 2⟩], []⟩ rfl⟩

/-- C7: the trimmer's traversal terminates on every finite trace graph,
cycles included: past the explicit step bound, additional fuel never
changes the traversal's result or the trimmed graph, and each traversal
marks every frame identity at most once (a frame visited once is never
re-expanded). -/
theorem trim_traversal_terminates (g : TraceGraph) (fuel : Nat)
    (h : trimFuelBound g ≤ fuel) :
    trimGraphFuel fuel g = trimGraph g
    ∧ markedFwdFuel fuel g = markedFwdFuel (trimFuelBound g) g
    ∧ markedBwdFuel fuel g = markedBwdFuel (trimFuelBound g) g
    ∧ (markedFwdFuel fuel g).Nodup
    ∧ (markedBwdFuel fuel g).Nodup := by
  have hf : markedFwdFuel fuel g = markedFwdFuel (trimFuelBound g) g := by
    rw [markedFwdFuel_stable (le_trans (le_max_left _ _) h)]
    exact (markedFwdFuel_stable (le_max_left _ _)).symm
  have hb : markedBwdFuel fuel g = markedBwdFuel (trimFuelBound g) g := by
    rw [markedBwdFuel_stable (le_trans (le_max_right _ _) h)]
    exact (markedBwdFuel_stable (le_max_right _ _)).symm
  refine ⟨?_, hf, hb, ?_, ?_⟩
  · unfold trimGraph trimGraphFuel
    simp only [hf, hb]
  · exact visitMark_nodup fuel [] (fwdSeeds g) List.nodup_nil
  · exact visitMark_nodup fuel [] (bwdSeeds g) List.nodup_nil

/-- C7 witness: the termination theorem applied to a graph with a
self-recursive frame (a cycle), at a fuel above the bound. -/
theorem trim_traversal_terminates_witness :
    trimFuelBound ⟨[⟨0, 1, 1⟩], [⟨1, 1⟩]⟩
        ≤ trimFuelBound ⟨[⟨0, 1, 1⟩], [⟨1, 1⟩]⟩ + 5
    ∧ (trimGraphFuel (trimFuelBound ⟨[⟨0, 1, 1⟩], [⟨1, 1⟩]⟩ + 5)
          ⟨[⟨0, 1, 1⟩], [⟨1, 1⟩]⟩
        = trimGraph ⟨[⟨0, 1, 1⟩], [⟨1, 1⟩]⟩
      ∧ markedFwdFuel (trimFuelBound ⟨[⟨0, 1, 1⟩], [⟨1, 1⟩]⟩ + 5)
          ⟨[⟨0, 1, 1⟩], [⟨1, 1⟩]⟩
        = markedFwdFuel (trimFuelBound ⟨[⟨0, 1, 1⟩], [⟨1, 1⟩]⟩)
          ⟨[⟨0, 1, 1⟩], [⟨1, 1⟩]⟩
      ∧ markedBwdFuel (trimFuelBound ⟨[⟨0, 1, 1⟩], [⟨1, 1⟩]⟩ + 5)
          ⟨[⟨0, 1, 1⟩], [⟨1, 1⟩]⟩
        = markedBwdFuel (trimFuelBound ⟨[⟨0, 1, 1⟩], [⟨1, 1⟩]⟩)
          ⟨[⟨0, 1, 1⟩], [⟨1, 1⟩]⟩
      ∧ (markedFwdFuel (trimFuelBound ⟨[⟨0, 1, 1⟩], [⟨1, 1⟩]⟩ + 5)
          ⟨[⟨0, 1, 1⟩], [⟨1, 1⟩]⟩).Nodup
      ∧ (markedBwdFuel (trimFuelBound ⟨[⟨0, 1, 1⟩], [⟨1, 1⟩]⟩ + 5)
          ⟨[⟨0, 1, 1⟩], [⟨1, 1⟩]⟩).Nodup) :=
  ⟨Nat.le_add_right _ _,
   trim_traversal_terminates ⟨[⟨0, 1, 1⟩], [⟨1, 1⟩]⟩
     (trimFuelBound ⟨[⟨0, 1, 1⟩], [⟨1, 1⟩]⟩ + 5) (Nat.le_add_right _ _)⟩

/-- C8: for a fixed parsed input, the Builder produces the same set of
SharedText entries (by content) and the same set of TraceFrame identity
tuples regardless of the ordering of the input records, including the
ordering of input shards before their order-insensitive merge. -/
theorem builder_determinism (records1 records2 : List ParsedRecord)
    (shards1 shards2 : List (List ParsedRecord))
    (hperm : List.Perm records1 records2)
    (hshards : List.Perm shards1 shards2) :
    (builderSharedTexts records1 = builderSharedTexts records2
      ∧ builderFrames records1 = builderFrames records2)
    ∧ (builderSharedTexts (mergeShards shards1)
        = builderSharedTexts (mergeShards shards2)
      ∧ builderFrames (mergeShards shards1)
        = builderFrames (mergeShards shards2)) := by
  have hj : List.Perm (mergeShards shards1) (mergeShards shards2) := by
    unfold mergeShards
    have hb := hshards.flatMap_right (id : List ParsedRecord → List ParsedRecord)
    simpa using hb
  refine ⟨⟨?_, ?_⟩, ?_, ?_⟩
  · rw [builderSharedTexts_eq, builderSharedTexts_eq]
    exact List.toFinset_eq_of_perm _ _ (hperm.flatMap_right recordTexts)
  · unfold builderFrames
    exact List.toFinset_eq_of_perm _ _ (hperm.flatMap_right recordFrames)
  · rw [builderSharedTexts_eq, builderSharedTexts_eq]
    exact List.toFinset_eq_of_perm _ _ (hj.flatMap_right recordTexts)
  · unfold builderFrames
    exact List.toFinset_eq_of_perm _ _ (hj.flatMap_right recordFrames)

/-- C8 witness: determinism applied to a concrete two-record input given in
both orders, and to the same input split into shards given in both
orders. -/
theorem builder_determinism_witness :
    List.Perm
      [ParsedRecord.condition FrameKind.precondition "foo" "bar" "arg0"
        "ret" "a.py" 10 ["feat"],
       ParsedRecord.issue 1 "foo" "msg" "a.py" 20]
      [ParsedRecord.issue 1 "foo" "msg" "a.py" 20,
       ParsedRecord.condition FrameKind.precondition "foo" "bar" "arg0"
        "ret" "a.py" 10 ["feat"]]
    ∧ builderSharedTexts
        [ParsedRecord.condition FrameKind.precondition "foo" "bar" "arg0"
          "ret" "a.py" 10 ["feat"],
         ParsedRecord.issue 1 "foo" "msg" "a.py" 20]
      = builderSharedTexts
        [ParsedRecord.issue 1 "foo" "msg" "a.py" 20,
         ParsedRecord.condition FrameKind.precondition "foo" "bar" "arg0"
          "ret" "a.py" 10 ["feat"]]
    ∧ builderFrames
        [ParsedRecord.condition FrameKind.precondition "foo" "bar" "arg0"
          "ret" "a.py" 10 ["feat"],
         ParsedRecord.issue 1 "foo" "msg" "a.py" 20]
      = builderFrames
        [ParsedRecord.issue 1 "foo" "msg" "a.py" 20,
         ParsedRecord.condition FrameKind.precondition "foo" "bar" "arg0"
          "ret" "a.py" 10 ["feat"]] := by
  have hperm : List.Perm
      [ParsedRecord.condition FrameKind.precondition "foo" "bar" "arg0"
        "ret" "a.py" 10 ["feat"],
       ParsedRecord.issue 1 "foo" "msg" "a.py" 20]
      [ParsedRecord.issue 1 "foo" "msg" "a.py" 20,
       ParsedRecord.condition FrameKind.precondition "foo" "bar" "arg0"
        "ret" "a.py" 10 ["feat"]] := List.Perm.swap _ _ []
  have happ := builder_determinism _ _ [] [] hperm (List.Perm.refl [])
  exact ⟨hperm, happ.1.1, happ.1.2⟩

/-- C9: an `analyze` invocation requesting a previous-input or line-map
file that does not exist aborts with a file-not-found error before the body
— and hence before any parsing — runs (the result does not depend on the
body at all), with a nonzero exit code; exit code 0 occurs only when the
command succeeds. -/
theorem analyze_missing_file_aborts {R : Type} (fs : List FilePath)
    (o : AnalyzeOptions) (p : FilePath)
    (hreq : o.previous_input = some p ∨ o.linemap = some p)
    (hm : p ∉ fs) :
    (∃ q, q ∉ fs ∧ ∀ runBody : AnalyzeOptions → R,
        analyzeCommand fs o runBody = Except.error (CliError.notFound q)
        ∧ exitCode (analyzeCommand fs o runBody) ≠ 0)
    ∧ (∀ runBody1 runBody2 : AnalyzeOptions → R,
        analyzeCommand fs o runBody1 = analyzeCommand fs o runBody2)
    ∧ (∀ (fs2 : List FilePath) (o2 : AnalyzeOptions)
        (runBody : AnalyzeOptions → R),
        exitCode (analyzeCommand fs2 o2 runBody) = 0 →
        ∃ r, analyzeCommand fs2 o2 runBody = Except.ok r) := by
  have hv : ∃ e, analyzeValidate fs o = Except.error e := by
    cases hres : analyzeValidate fs o with
    | error e => exact ⟨e, rfl⟩
    | ok u =>
      obtain ⟨h1, h2⟩ := analyzeValidate_ok_means hres
      rcases hreq with hp | hp
      · exact absurd (h1 p hp) hm
      · exact absurd (h2 p hp) hm
  obtain ⟨e, he⟩ := hv
  obtain ⟨q, heq, hq⟩ := analyzeValidate_error_shape he
  subst heq
  refine ⟨⟨q, hq, ?_⟩, ?_, ?_⟩
  · intro runBody
    constructor
    · unfold analyzeCommand
      rw [he]
    · unfold analyzeCommand
      rw [he]
      simp [exitCode]
  · intro rb1 rb2
    unfold analyzeCommand
    rw [he]
  · intro fs2 o2 runBody h0
    unfold analyzeCommand at h0 ⊢
    cases hres : analyzeValidate fs2 o2 with
    | error e2 =>
      rw [hres] at h0
      cases e2 with
      | notFound p2 => simp [exitCode] at h0
      | pipelineError => simp [exitCode] at h0
    | ok u => exact ⟨runBody o2, rfl⟩

/-- C9 witness: the abort theorem applied to a concrete invocation whose
previous-input file is absent from the filesystem. -/
theorem analyze_missing_file_aborts_witness :
    ((⟨none, none, none, none, none, none, some "missing.json", none, false,
        "input.json"⟩ : AnalyzeOptions).previous_input = some "missing.json"
      ∨ (⟨none, none, none, none, none, none, some "missing.json", none,
        false, "input.json"⟩ : AnalyzeOptions).linemap = some "missing.json")
    ∧ "missing.json" ∉ ["input.json"]
    ∧ ((∃ q, q ∉ ["input.json"] ∧ ∀ runBody : AnalyzeOptions → Unit,
          analyzeCommand ["input.json"]
            ⟨none, none, none, none, none, none, some "missing.json", none,
              false, "input.json"⟩ runBody
            = Except.error (CliError.notFound q)
          ∧ exitCode (analyzeCommand ["input.json"]
              ⟨none, none, none, none, none, none, some "missing.json", none,
                false, "input.json"⟩ runBody) ≠ 0)
      ∧ (∀ runBody1 runBody2 : AnalyzeOptions → Unit,
          analyzeCommand ["input.json"]
            ⟨none, none, none, none, none, none, some "missing.json", none,
              false, "input.json"⟩ runBody1
          = analyzeCommand ["input.json"]
            ⟨none, none, none, none, none, none, some "missing.json", none,
              false, "input.json"⟩ runBody2)
      ∧ (∀ (fs2 : List FilePath) (o2 : AnalyzeOptions)
          (runBody : AnalyzeOptions → Unit),
          exitCode (analyzeCommand fs2 o2 runBody) = 0 →
          ∃ r, analyzeCommand fs2 o2 runBody = Except.ok r)) :=
  ⟨Or.inl rfl, by decide,
   analyze_missing_file_aborts ["input.json"]
     ⟨none, none, none, none, none, none, some "missing.json", none, false,
       "input.json"⟩ "missing.json" (Or.inl rfl) (by decide)⟩

/-- C10: when `--previous-issue-handles` is supplied, the handles file is
loaded and recorded in the run summary, and the `--previous-input` file is
never loaded: its raw path value is what reaches the pipeline as the second
input; only when `--previous-issue-handles` is absent is the previous-input
file loaded. -/
theorem analyze_handles_precedence (repo : Option String)
    (o : AnalyzeOptions) :
    (∀ hp : FilePath, o.previous_issue_handles = some hp → hp ≠ "" →
      (analyzeSetup repo o).1.previous_issue_handles
          = some (AnalysisOutput.fromFile hp)
      ∧ (analyzeSetup repo o).2.2
          = (match o.previous_input with
             | some p => PipelineInput.raw p
             | none => PipelineInput.noInput))
    ∧ (o.previous_issue_handles = none →
        (analyzeSetup repo o).1.previous_issue_handles = none
        ∧ ∀ pi : FilePath, o.previous_input = some pi → pi ≠ "" →
          (analyzeSetup repo o).2.2
            = PipelineInput.analysisOutput (AnalysisOutput.fromFile pi)) := by
  constructor
  · intro hp h1 h2
    constructor
    · simp [analyzeSetup, optTruthy, h1, h2]
    · simp [analyzeSetup, optTruthy, h1, h2]
  · intro h1
    constructor
    · simp [analyzeSetup, optTruthy, h1]
    · intro pi h2 h3
      simp [analyzeSetup, optTruthy, h1, h2, h3]

/-- C10 witness: with both options supplied, the summary records the
loaded handles file while the second pipeline input is the raw
previous-input path. -/
theorem analyze_handles_precedence_witness :
    (analyzeSetup none
        ⟨none, none, none, none, none, some "handles.txt", some "prev.json",
          none, false, "cur.json"⟩).1.previous_issue_handles
      = some (AnalysisOutput.fromFile "handles.txt")
    ∧ (analyzeSetup none
        ⟨none, none, none, none, none, some "handles.txt", some "prev.json",
          none, false, "cur.json"⟩).2.2
      = PipelineInput.raw "prev.json" :=
  (analyze_handles_precedence none
    ⟨none, none, none, none, none, some "handles.txt", some "prev.json",
      none, false, "cur.json"⟩).1 "handles.txt" rfl (by decide)

end Sapp
